import Mathlib

/-!
Verification development for the LocalAudioPlayer repository (src/main.py).

The library model of the `AudioPlayer` class is embedded shallowly:

* a Python dict (insertion-ordered, unique keys) becomes an ordered
  association list `List (String × α)` with `dictGet` / `dictSet` /
  `dictDel` / `dictContains`;
* the mutable widget state relevant to the library model becomes the
  record `PlayerState` (`genres`, `scanned_folders`, `current_playlist`,
  `current_index`, combo-box text `genre_filter`);
* `os.walk` results and `os.path.exists` are passed in as parameters,
  and the metadata extractor (`extract_metadata`, which wraps mutagen)
  is passed in as a function `String → Meta`;
* the persisted JSON file becomes `Option String` (its textual content),
  with `json.dump`'s behaviour on Python values — including its
  `TypeError` on `bytes` — modelled by `dumpValue`, and `json.load`'s
  output modelled by the `JValue` tree.

Every definition mirrors the single authoritative revision in
src/main.py; line numbers in doc comments refer to that file.
-/

namespace LocalAudioPlayer

/-- Raw bytes of an embedded album-art image as extracted by mutagen. -/
abbrev Bytes := List Nat

/-- One track record exactly as built by `AudioPlayer.scan_folder`
(src/main.py:100-105): a dict with keys path, title, artist, album_art. -/
structure Track where
  path : String
  title : String
  artist : String
  album_art : Option Bytes
deriving DecidableEq

/-- The result of `AudioPlayer.extract_metadata` (src/main.py:789-856); the
extractor wraps mutagen and is treated as an external collaborator, so the
scan is parameterised by a function `String → Meta`. -/
structure Meta where
  title : String
  artist : String
  album_art : Option Bytes
deriving DecidableEq

/-- One entry of `self.current_playlist`: a copy of a track dict with the
extra key genre (`track_copy['genre'] = genre`, src/main.py:706-714). -/
structure ATrack where
  track : Track
  genre : String
deriving DecidableEq

/-- Lookup in an insertion-ordered association list; models Python
`d[k]` / `d.get(k)` returning the unique entry for the key. -/
def dictGet {α : Type} (d : List (String × α)) (k : String) : Option α :=
  match d with
  | [] => none
  | (k', v) :: rest => if k' = k then some v else dictGet rest k

/-- Models Python `k in d`. -/
def dictContains {α : Type} (d : List (String × α)) (k : String) : Bool :=
  (dictGet d k).isSome

/-- Models Python `d[k] = v`: replaces the entry in place when the key is
present, otherwise appends it (dict insertion order). -/
def dictSet {α : Type} (d : List (String × α)) (k : String) (v : α) :
    List (String × α) :=
  match d with
  | [] => [(k, v)]
  | (k', v') :: rest =>
    if k' = k then (k', v) :: rest else (k', v') :: dictSet rest k v

/-- Models Python `del d[k]`: removes the (first) entry for the key. -/
def dictDel {α : Type} (d : List (String × α)) (k : String) :
    List (String × α) :=
  match d with
  | [] => []
  | (k', v') :: rest =>
    if k' = k then rest else (k', v') :: dictDel rest k

/-- The key sequence of an association list. -/
def keys {α : Type} (d : List (String × α)) : List String :=
  d.map Prod.fst

/-- A Python dict never holds the same key twice; association lists with
duplicate keys are unreachable states of the embedding. -/
def keysNodup {α : Type} (d : List (String × α)) : Prop :=
  (keys d).Nodup

instance {α : Type} [DecidableEq α] (d : List (String × α)) :
    Decidable (keysNodup d) := by
  unfold keysNodup
  infer_instance

/-- The mutable state of `AudioPlayer` that the library model touches:
`self.genres`, `self.scanned_folders`, `self.current_playlist`,
`self.current_index` and the genre combo box text (src/main.py:34-37,
`genre_combo.currentText()`). The scanned-folders set is kept as a list
with set-like insertion; only its membership matters to the code. -/
structure PlayerState where
  genres : List (String × List Track)
  scanned_folders : List String
  current_playlist : List ATrack
  current_index : Int
  genre_filter : String
deriving DecidableEq

/-- The All-Genres flattening of `update_playlist` (src/main.py:702-709):
every bucket in dict iteration order, each track copied and annotated
with its source genre. -/
def flattenAll (genres : List (String × List Track)) : List ATrack :=
  genres.flatMap (fun gv => gv.2.map (fun t => ⟨t, gv.1⟩))

/-- `AudioPlayer.update_playlist` (src/main.py:697-717): recomputes
`self.current_playlist` from `self.genres` and the combo text. Note the
source leaves `self.current_index` untouched. A missing specific genre
yields `[]` via `self.genres.get(current_genre, [])`. -/
def update_playlist (s : PlayerState) : PlayerState :=
  if s.genre_filter = "All Genres" then
    { s with current_playlist := flattenAll s.genres }
  else
    let bucket := (dictGet s.genres s.genre_filter).getD []
    { s with current_playlist := bucket.map (fun t => ⟨t, s.genre_filter⟩) }

/-- Supported audio formats (src/main.py:77). -/
def supported_formats : List String :=
  [".mp3", ".wav", ".flac", ".m4a", ".ogg"]

/-- Python `str.lower`, character by character (every name the claims use
is ASCII, where this agrees with Python). Implemented over the character
list so that concrete examples evaluate inside the kernel. -/
def lowerStr (s : String) : String :=
  ⟨s.data.map Char.toLower⟩

/-- Python `str.endswith`. -/
def strEndsWith (s suff : String) : Bool :=
  suff.data.isSuffixOf s.data

/-- The per-file extension test of the scan loop
(`any(file.lower().endswith(fmt) for fmt in supported_formats)`,
src/main.py:91). -/
def isAudioFile (file : String) : Bool :=
  supported_formats.any (fun fmt => strEndsWith (lowerStr file) fmt)

/-- POSIX `os.path.basename`: the part after the last slash. -/
def basename (p : String) : String :=
  ⟨(p.data.reverse.takeWhile (fun c => c ≠ '/')).reverse⟩

/-- One `(root, dirs, files)` triple yielded by `os.walk`; the unused
`dirs` component is omitted. -/
structure DirEntry where
  root : String
  files : List String
deriving DecidableEq

/-- A filesystem walk, passed in as a parameter: the list of directory
entries `os.walk(folder_path)` yields for a given root, in walk order. -/
abbrev Walk := String → List DirEntry

/-- The track list the inner loop of `scan_folder` (src/main.py:90-105)
appends, one element per matching file of one directory, in file order. -/
def dirBucket (extract : String → Meta) (e : DirEntry) : List Track :=
  (e.files.filter isAudioFile).map (fun f =>
    let fp := e.root ++ "/" ++ f
    let m := extract fp
    { path := fp, title := m.title, artist := m.artist,
      album_art := m.album_art })

/-- The file paths the same loop hands to `extract_metadata`, in order. -/
def dirLog (e : DirEntry) : List String :=
  (e.files.filter isAudioFile).map (fun f => e.root ++ "/" ++ f)

/-- The body of the `for root, _, files in os.walk(...)` loop of
`scan_folder` (src/main.py:79-105): derive the genre from the directory
basename, create the bucket if absent, clear it
(`self.genres[genre] = []`, the "Clear existing tracks for this genre"
line), then append one record per matching file — the appends build
exactly `dirBucket`. -/
def scanStep (extract : String → Meta)
    (genres : List (String × List Track)) (e : DirEntry) :
    List (String × List Track) :=
  let genre := basename e.root
  let g0 := if dictContains genres genre then genres
            else genres ++ [(genre, [])]
  let g1 := dictSet g0 genre []
  dictSet g1 genre (dirBucket extract e)

/-- `AudioPlayer.scan_folder` (src/main.py:73-109): walk the tree, rebuild
the bucket of every visited directory's basename, add the folder to
`self.scanned_folders`, recompute the playlist (then `save_data`, a file
effect modelled separately by `save_data`). The second component returns
the paths passed to the Metadata Extractor during this call. -/
def scan_folder (fs : Walk) (extract : String → Meta) (s : PlayerState)
    (folder_path : String) : PlayerState × List String :=
  let g := (fs folder_path).foldl (scanStep extract) s.genres
  let s1 : PlayerState :=
    { s with genres := g,
             scanned_folders :=
               if folder_path ∈ s.scanned_folders then s.scanned_folders
               else s.scanned_folders ++ [folder_path] }
  (update_playlist s1, (fs folder_path).flatMap dirLog)

/-- One iteration of the All-Genres branch of `remove_selected`
(src/main.py:620-634): look the selected row up in the playlist, filter
its path out of its genre's bucket, delete the bucket if it became
empty. Out-of-range rows cannot come from the widget and a missing
bucket key would raise `KeyError` in the source; both are modelled as
leaving the state unchanged and are never exercised by the claims. -/
def removeStepAll (s : PlayerState) (i : Nat) : PlayerState :=
  match s.current_playlist.get? i with
  | none => s
  | some a =>
    match dictGet s.genres a.genre with
    | none => s
    | some ts =>
      let ts' := ts.filter (fun t => t.path ≠ a.track.path)
      let g1 := dictSet s.genres a.genre ts'
      if ts' = [] then { s with genres := dictDel g1 a.genre }
      else { s with genres := g1 }

/-- `AudioPlayer.remove_selected` (src/main.py:612-649), with the selected
widget rows passed as a list of indices into `current_playlist`. In the
specific-genre branch, deleting the genre also calls
`setCurrentText("All Genres")`, whose change signal re-runs
`update_playlist`; the final `update_playlist` recomputes the same list,
so a single trailing recomputation is equivalent. -/
def remove_selected (s : PlayerState) (sel : List Nat) : PlayerState :=
  if sel = [] then s
  else
    let s' :=
      if s.genre_filter = "All Genres" then sel.foldl removeStepAll s
      else
        match dictGet s.genres s.genre_filter with
        | none => s
        | some ts =>
          let ts' := ((ts.enum.filter (fun p => p.1 ∉ sel)).map Prod.snd)
          let g1 := dictSet s.genres s.genre_filter ts'
          if ts' = [] then
            { s with genres := dictDel g1 s.genre_filter,
                     genre_filter := "All Genres" }
          else { s with genres := g1 }
    update_playlist s'

/-- `AudioPlayer.play_track` (src/main.py:932-959): inside the
`0 <= index < len(...)` guard it sets `current_index` and feeds the
track's path to the media player; outside the guard nothing happens.
The second component is the source handed to `player.setSource`. -/
def play_track (s : PlayerState) (index : Int) : PlayerState × Option String :=
  if h : 0 ≤ index ∧ index < (s.current_playlist.length : Int) then
    let a := s.current_playlist.get ⟨index.toNat, by omega⟩
    ({ s with current_index := index }, some a.track.path)
  else (s, none)

/-- `AudioPlayer.play_next` (src/main.py:961-964): guarded by playlist
non-emptiness, so the `% len(...)` has a positive divisor. -/
def play_next (s : PlayerState) : PlayerState × Option String :=
  if s.current_playlist = [] then (s, none)
  else play_track s ((s.current_index + 1) % (s.current_playlist.length : Int))

/-- `AudioPlayer.play_previous` (src/main.py:966-969). -/
def play_previous (s : PlayerState) : PlayerState × Option String :=
  if s.current_playlist = [] then (s, none)
  else play_track s ((s.current_index - 1) % (s.current_playlist.length : Int))

/-- `AudioPlayer.shuffle_playlist` (src/main.py:971-987), with the result
of the in-place `random.shuffle` passed in as `shuffled` (the claims
constrain it to a permutation). `current_track` is a non-empty dict
whenever it is not `None`, so Python's truthiness test coincides with
`Option.isSome`; `list.index` finds the first equal element. -/
def shuffle_playlist (s : PlayerState) (shuffled : List ATrack) : PlayerState :=
  if s.current_playlist = [] then s
  else
    let current_track : Option ATrack :=
      if 0 ≤ s.current_index then s.current_playlist.get? s.current_index.toNat
      else none
    let s1 := { s with current_playlist := shuffled }
    match current_track with
    | some t => { s1 with current_index := (shuffled.indexOf t : Int) }
    | none => s1

/-- JSON string escaping as performed by `json.dump`, restricted to the
backslash and quote cases; every concrete path, title and genre the
claims use stays within plain printable ASCII, where these are the only
characters Python escapes. -/
def jsonEscape (s : String) : String :=
  String.join (s.data.map (fun c =>
    if c = '\\' then "\\\\"
    else if c = '"' then "\\\""
    else String.singleton c))

/-- A JSON string literal. -/
def jsonQuote (s : String) : String :=
  "\"" ++ jsonEscape s ++ "\""

/-- The `", ".join(...)` of the default JSON item separator. -/
def joinSep (sep : String) : List String → String
  | [] => ""
  | [x] => x
  | x :: xs => x ++ sep ++ joinSep sep xs

/-- One `"key": value` item of a serialized JSON object. -/
def jsonEntry (k : String) (v : String) : String :=
  jsonQuote k ++ ": " ++ v

/-- `json.dump` (src/main.py:688) serializes with the incremental
pure-Python encoder (`iterencode(obj, _one_shot=False)`), writing each
yielded chunk to the already-truncated file as it goes; a `TypeError`
raised mid-iteration therefore leaves every chunk yielded so far in the
file. The model follows that encoder chunk for chunk, specialized to the
value shape `save_data` passes (the nested dict/list/str/None/bytes
structure of `\x7b'genres': ..., 'folders': ...\x7d`): each function
returns the text written for its subvalue and whether encoding completed
(`false` = `TypeError: Object of type bytes is not JSON serializable`,
raised before any chunk of the offending value is yielded).

`dumpTrack`: one track dict (src/main.py:100-105). The encoder yields
`\x7b`, then for each entry a `", "` separator (after the first), the
quoted key and `": "`, then the value's chunks; `path`, `title`, `artist`
are strings and `album_art` is either `None` (chunk `null`, then the
closing `\x7d`) or raw bytes, on which the encoder raises — after the
key and `": "` are already written. -/
def dumpTrack (t : Track) : String × Bool :=
  let head := "\x7b" ++ jsonEntry "path" (jsonQuote t.path) ++ ", " ++
    jsonEntry "title" (jsonQuote t.title) ++ ", " ++
    jsonEntry "artist" (jsonQuote t.artist) ++ ", " ++
    jsonQuote "album_art" ++ ": "
  match t.album_art with
  | none => (head ++ "null" ++ "\x7d", true)
  | some _ => (head, false)

/-- The chunks written for the elements of a track list, with the `", "`
separator yielded before every element but the first; encoding stops at
the first failing element. -/
def dumpTrackItems : List Track → Bool → String × Bool
  | [], _ => ("", true)
  | t :: ts, first =>
    let sep := if first then "" else ", "
    let vt := dumpTrack t
    if vt.2 then
      let rest := dumpTrackItems ts false
      (sep ++ vt.1 ++ rest.1, rest.2)
    else (sep ++ vt.1, false)

/-- One genre's track list: the encoder yields `[]` for an empty list,
otherwise `[`, the element chunks, and `]` only when all elements
encoded. -/
def dumpTrackList (ts : List Track) : String × Bool :=
  match ts with
  | [] => ("[]", true)
  | _ =>
    let r := dumpTrackItems ts true
    ("[" ++ r.1 ++ (if r.2 then "]" else ""), r.2)

/-- The entries of the genres dict, separator before every entry but the
first, key and `": "` before the value's chunks. -/
def dumpGenreItems : List (String × List Track) → Bool → String × Bool
  | [], _ => ("", true)
  | (g, ts) :: gl, first =>
    let sep := if first then "" else ", "
    let vts := dumpTrackList ts
    if vts.2 then
      let rest := dumpGenreItems gl false
      (sep ++ jsonEntry g vts.1 ++ rest.1, rest.2)
    else (sep ++ jsonEntry g vts.1, false)

/-- The genres dict: `\x7b\x7d` when empty, else `\x7b`, the entry
chunks, and `\x7d` only on complete encoding. -/
def dumpGenresDict (gl : List (String × List Track)) : String × Bool :=
  match gl with
  | [] => ("\x7b\x7d", true)
  | _ =>
    let r := dumpGenreItems gl true
    ("\x7b" ++ r.1 ++ (if r.2 then "\x7d" else ""), r.2)

/-- The folders list (`list(self.scanned_folders)`): all elements are
strings, so its encoding never fails. -/
def dumpFolderItems : List String → Bool → String
  | [], _ => ""
  | f :: fs, first =>
    (if first then "" else ", ") ++ jsonQuote f ++ dumpFolderItems fs false

/-- The serialized folders list. -/
def dumpFolderList (fs : List String) : String :=
  match fs with
  | [] => "[]"
  | _ => "[" ++ dumpFolderItems fs true ++ "]"

/-- The whole `data` dict of `save_data` (src/main.py:683-686): the
encoder yields `\x7b`, the `genres` key and `": "`, the genres dict's
chunks; when those complete, the `", "` separator, the `folders` key and
`": "`, the folders chunks (which cannot fail) and the closing `\x7d`.
A failure inside the genres dict leaves exactly the chunks yielded up to
the raise. -/
def dumpConfig (s : PlayerState) : String × Bool :=
  let rg := dumpGenresDict s.genres
  if rg.2 then
    ("\x7b" ++ jsonEntry "genres" rg.1 ++ ", " ++
       jsonEntry "folders" (dumpFolderList s.scanned_folders) ++ "\x7d",
     true)
  else ("\x7b" ++ jsonEntry "genres" rg.1, false)

/-- `AudioPlayer.save_data` (src/main.py:680-690) as a transformer of the
on-disk file content (`Option String`; `none` = file absent). `openOk`
names whether `open(self.config_file, 'w')` itself succeeds: a failing
open raises before touching the file and the `except` swallows it; a
successful open truncates the file at once, after which the file ends up
holding exactly the chunks `json.dump` wrote — the full document when
encoding completes, or the partial prefix written before the `TypeError`
on album-art bytes. The `except` always absorbs the exception, so the
function is total. -/
def save_data (s : PlayerState) (file : Option String) (openOk : Bool) :
    Option String :=
  if openOk then some (dumpConfig s).1 else file

/-- Written to the spec's words for comparison with `save_data`: the
persisted-document shape claimed in spec §6 for one track,
`\x7b"path": str, "title": str, "artist": str, "album_art": null\x7d` —
`album_art` always `null`. -/
def specTrackShape (t : Track) : String :=
  "\x7b" ++
    joinSep ", "
      [jsonEntry "path" (jsonQuote t.path),
       jsonEntry "title" (jsonQuote t.title),
       jsonEntry "artist" (jsonQuote t.artist),
       jsonEntry "album_art" "null"] ++ "\x7d"

/-- Written to the spec's words: the full persisted-document shape of
spec §6, `\x7b"genres": \x7b<name>: [<track>...]\x7d, "folders": [str...]\x7d`. -/
def specSaveShape (s : PlayerState) : String :=
  "\x7b" ++
    joinSep ", "
      [jsonEntry "genres"
        ("\x7b" ++
          joinSep ", "
            (s.genres.map (fun gv =>
              jsonEntry gv.1
                ("[" ++ joinSep ", " (gv.2.map specTrackShape) ++ "]"))) ++
          "\x7d"),
       jsonEntry "folders"
        ("[" ++ joinSep ", " (s.scanned_folders.map jsonQuote) ++ "]")] ++
    "\x7d"

/-- A parsed JSON document as returned by `json.load`: the persisted file
cannot contain `bytes`, so this is the bytes-free value tree. -/
inductive JValue where
  | null
  | bool (b : Bool)
  | num (n : Int)
  | str (s : String)
  | arr (xs : List JValue)
  | obj (kvs : List (String × JValue))

/-- Interpretation of one persisted track record by the validation loop of
`load_saved_data` (src/main.py:661-671). `none` models an exception
escaping to the outer handler (`KeyError` on a missing path, `TypeError`
from `os.path.exists` on a non-string path, indexing a non-dict);
`some none` a stale record dropped because its path no longer exists;
`some (some t)` a kept record. When artist is absent the source backfills
both artist and title from the extractor, overwriting any existing title.
The source does not type-check present title/artist values — records
where they are not strings load in Python and only break later in the
UI; the model treats them as load failures, and no claim exercises them.
Album-art values in the file (always null for files `save_data` wrote)
are not used to rebuild in-memory bytes. -/
def interpTrack (pathExists : String → Bool) (extract : String → Meta)
    (j : JValue) : Option (Option Track) :=
  match j with
  | .obj kvs =>
    match dictGet kvs "path" with
    | some (.str p) =>
      if pathExists p then
        match dictGet kvs "artist" with
        | some (.str a) =>
          match dictGet kvs "title" with
          | some (.str ti) =>
            some (some { path := p, title := ti, artist := a,
                         album_art := none })
          | _ => none
        | some _ => none
        | none =>
          let m := extract p
          some (some { path := p, title := m.title, artist := m.artist,
                       album_art := none })
      else some none
    | some _ => none
    | none => none
  | _ => none

/-- The kept records of one genre's persisted list, in order
(`updated_tracks`, src/main.py:662-671). -/
def interpTracks (pathExists : String → Bool) (extract : String → Meta) :
    List JValue → Option (List Track)
  | [] => some []
  | j :: js =>
    match interpTrack pathExists extract j, interpTracks pathExists extract js with
    | some (some t), some ts => some (t :: ts)
    | some none, some ts => some ts
    | _, _ => none

/-- The validated genres mapping: every genre's value must be a list
(iterating anything else and indexing its elements raises). -/
def interpGenres (pathExists : String → Bool) (extract : String → Meta) :
    List (String × JValue) → Option (List (String × List Track))
  | [] => some []
  | (g, v) :: rest =>
    match v with
    | .arr js =>
      match interpTracks pathExists extract js,
            interpGenres pathExists extract rest with
      | some ts, some r => some ((g, ts) :: r)
      | _, _ => none
    | _ => none

/-- The persisted folders list, `set(data.get('folders', []))`. The Python
set loses order (irrelevant: only membership is ever used) and accepts
any hashable element; the model keeps order and requires strings — the
claims only use string folders. -/
def interpFolders : List JValue → Option (List String)
  | [] => some []
  | .str f :: rest => (interpFolders rest).map (fun r => f :: r)
  | _ :: _ => none

/-- The whole body of the `try` block of `load_saved_data` after
`json.load` (src/main.py:656-674): `data` must support `.get`
(be a dict), `genres` defaults to an empty dict and `folders` to an
empty list when absent, and the validation loop must not raise. -/
def interpConfig (pathExists : String → Bool) (extract : String → Meta)
    (j : JValue) : Option (List (String × List Track) × List String) :=
  match j with
  | .obj kvs =>
    match (dictGet kvs "genres").getD (.obj []),
          (dictGet kvs "folders").getD (.arr []) with
    | .obj gkvs, .arr fs =>
      match interpGenres pathExists extract gkvs, interpFolders fs with
      | some g, some f => some (g, f)
      | _, _ => none
    | _, _ => none
  | _ => none

/-- `AudioPlayer.load_saved_data` (src/main.py:651-678): when the config
file exists, `parsed` is `json.load`'s result (`none` = parse or read
raised); any exception inside the `try` lands in the handler, which
resets both the genres dict and the folder set to empty. When the file
does not exist the state is left as constructed. The trailing
`self.save_data()` on success is a file effect modelled by `save_data`.
The `except` is a catch-all, so the function is total — `load` never
raises to its caller. -/
def load_saved_data (fileExists : Bool) (parsed : Option JValue)
    (pathExists : String → Bool) (extract : String → Meta)
    (s : PlayerState) : PlayerState :=
  if fileExists then
    match parsed with
    | none => { s with genres := [], scanned_folders := [] }
    | some j =>
      match interpConfig pathExists extract j with
      | none => { s with genres := [], scanned_folders := [] }
      | some gf => { s with genres := gf.1, scanned_folders := gf.2 }
  else s

/-- The bucket content the walk of `scan_folder` assigns to a genre key:
the freshly built bucket of the last walked directory whose basename is
that key, if any — independent of the bucket's prior content. -/
def walkBucket (extract : String → Meta) (es : List DirEntry) (k : String) :
    Option (List Track) :=
  match es with
  | [] => none
  | e :: es' =>
    match walkBucket extract es' k with
    | some b => some b
    | none =>
      if basename e.root = k then some (dirBucket extract e) else none

/-- The playlist content `update_playlist` computes from a genres dict and
the combo text, as a function. -/
def playlistOf (genres : List (String × List Track)) (gfilter : String) :
    List ATrack :=
  if gfilter = "All Genres" then flattenAll genres
  else ((dictGet genres gfilter).getD []).map (fun t => ⟨t, gfilter⟩)

/-- Spec §3 invariant: across genre buckets, the same path does not
currently appear in more than one bucket. -/
def PathsDisjoint (g : List (String × List Track)) : Prop :=
  List.Pairwise
    (fun gv gv' => ∀ p ∈ gv.2.map Track.path, p ∉ gv'.2.map Track.path) g

instance (g : List (String × List Track)) : Decidable (PathsDisjoint g) := by
  unfold PathsDisjoint
  infer_instance

/-- Metadata extractor used by the concrete examples: title is the path
itself, the fixed fallback artist, no album art. -/
def exampleExtract : String → Meta := fun p => ⟨p, "Unknown Artist", none⟩

/-- A concrete filesystem walk: root folder `A` holds a subdirectory `G`
with `a.mp3`; root folder `B` holds a same-named subdirectory `G` with
`b.mp3`. -/
def exampleWalk : Walk := fun p =>
  if p = "A" then [⟨"A", []⟩, ⟨"A/G", ["a.mp3"]⟩]
  else if p = "B" then [⟨"B", []⟩, ⟨"B/G", ["b.mp3"]⟩]
  else []

/-- The freshly constructed player state (src/main.py:34-37). -/
def initState : PlayerState :=
  { genres := [], scanned_folders := [], current_playlist := [],
    current_index := -1, genre_filter := "All Genres" }

/-- The state after scanning root folder `A`. -/
def stateA : PlayerState :=
  (scan_folder exampleWalk exampleExtract initState "A").1

/-- The state after scanning root folder `A` and then root folder `B`. -/
def stateAB : PlayerState :=
  (scan_folder exampleWalk exampleExtract stateA "B").1

/-- The track record the scan of `A` builds for `A/G/a.mp3`. -/
def trackA1 : Track := ⟨"A/G/a.mp3", "A/G/a.mp3", "Unknown Artist", none⟩

/-- The track record the scan of `B` builds for `B/G/b.mp3`. -/
def trackB1 : Track := ⟨"B/G/b.mp3", "B/G/b.mp3", "Unknown Artist", none⟩

/-- A track without album art for the removal and persistence examples. -/
def trackRock : Track := ⟨"Rock/x.mp3", "x", "A", none⟩

/-- A library state with one Rock track and an empty Chill bucket — the
shape `scan_folder` produces when a walked directory holds no audio
files — with the playlist recomputed. -/
def stateRC : PlayerState :=
  update_playlist
    { genres := [("Rock", [trackRock]), ("Chill", [])],
      scanned_folders := ["F"], current_playlist := [],
      current_index := -1, genre_filter := "All Genres" }

/-- A state with one loaded track: the playlist holds the one Rock track
and the cursor points at it. -/
def statePlay : PlayerState :=
  { genres := [("Rock", [trackRock])], scanned_folders := [],
    current_playlist := [⟨trackRock, "Rock"⟩], current_index := 0,
    genre_filter := "All Genres" }

/-- A track holding in-memory album-art bytes. -/
def trackArt : Track := ⟨"Rock/x.mp3", "x", "A", some [255, 216, 255]⟩

/-- A library state holding album-art bytes in memory. -/
def stateArt : PlayerState :=
  { genres := [("Rock", [trackArt])], scanned_folders := ["F"],
    current_playlist := [], current_index := -1,
    genre_filter := "All Genres" }

theorem keys_append {α : Type} (d d' : List (String × α)) :
    keys (d ++ d') = keys d ++ keys d' := by
  simp [keys]

@[simp] theorem keys_nil {α : Type} : keys ([] : List (String × α)) = [] := rfl

@[simp] theorem keys_cons {α : Type} (k0 : String) (v0 : α)
    (tl : List (String × α)) : keys ((k0, v0) :: tl) = k0 :: keys tl := rfl

theorem dictGet_dictSet_self {α : Type} (d : List (String × α)) (k : String)
    (v : α) : dictGet (dictSet d k v) k = some v := by
  induction d with
  | nil => simp [dictSet, dictGet]
  | cons hd tl ih =>
    obtain ⟨k0, v0⟩ := hd
    by_cases h : k0 = k
    · subst h; simp [dictSet, dictGet]
    · simp [dictSet, dictGet, h, ih]

theorem dictGet_dictSet_ne {α : Type} (d : List (String × α)) {k k' : String}
    (v : α) (h : k ≠ k') : dictGet (dictSet d k v) k' = dictGet d k' := by
  induction d with
  | nil => simp [dictSet, dictGet, h]
  | cons hd tl ih =>
    obtain ⟨k0, v0⟩ := hd
    by_cases h0 : k0 = k
    · subst h0; simp [dictSet, dictGet, h]
    · by_cases h1 : k0 = k'
      · subst h1; simp [dictSet, dictGet, h0]
      · simp [dictSet, dictGet, h0, h1, ih]

theorem mem_keys_iff {α : Type} (d : List (String × α)) (k : String) :
    k ∈ keys d ↔ (dictGet d k).isSome = true := by
  induction d with
  | nil => simp [dictGet, keys]
  | cons hd tl ih =>
    obtain ⟨k0, v0⟩ := hd
    by_cases h : k0 = k
    · subst h; simp [dictGet]
    · have h' : ¬k = k0 := fun hh => h hh.symm
      simp [dictGet, h, h', ih]

theorem dictGet_eq_none_of_not_mem {α : Type} {d : List (String × α)}
    {k : String} (h : k ∉ keys d) : dictGet d k = none := by
  cases hd : dictGet d k with
  | none => rfl
  | some v =>
    exact absurd ((mem_keys_iff d k).mpr (by simp [hd])) h

theorem dictGet_of_mem_nodup {α : Type} {d : List (String × α)} {k : String}
    {v : α} (h : keysNodup d) (hm : (k, v) ∈ d) : dictGet d k = some v := by
  induction d with
  | nil => simp at hm
  | cons hd tl ih =>
    obtain ⟨k0, v0⟩ := hd
    have hn : k0 ∉ keys tl ∧ keysNodup tl := by
      simpa [keysNodup, keys] using h
    rcases List.mem_cons.mp hm with heq | hmem
    · injection heq with h1 h2
      subst h1; subst h2
      simp [dictGet]
    · have hk : k ∈ keys tl := by
        have := List.mem_map_of_mem Prod.fst hmem
        simpa [keys] using this
      have h0 : k0 ≠ k := fun hh => hn.1 (hh ▸ hk)
      simp [dictGet, h0, ih hn.2 hmem]

theorem mem_of_dictGet {α : Type} {d : List (String × α)} {k : String} {v : α}
    (h : dictGet d k = some v) : (k, v) ∈ d := by
  induction d with
  | nil => simp [dictGet] at h
  | cons hd tl ih =>
    obtain ⟨k0, v0⟩ := hd
    by_cases h0 : k0 = k
    · subst h0
      simp [dictGet] at h
      subst h
      exact List.mem_cons_self _ _
    · simp [dictGet, h0] at h
      exact List.mem_cons_of_mem _ (ih h)

theorem dict_ext {α : Type} {g h : List (String × α)} (hn : keysNodup g)
    (hk : keys g = keys h) (he : ∀ k, dictGet g k = dictGet h k) : g = h := by
  induction g generalizing h with
  | nil =>
    cases h with
    | nil => rfl
    | cons hd tl => simp [keys] at hk
  | cons hd tl ih =>
    obtain ⟨k0, v0⟩ := hd
    cases h with
    | nil => simp [keys] at hk
    | cons hd' tl' =>
      obtain ⟨k1, v1⟩ := hd'
      have hkk : k0 = k1 ∧ keys tl = keys tl' := by simpa [keys] using hk
      obtain ⟨rfl, hk2⟩ := hkk
      have hv : v0 = v1 := by
        have h0 := he k0
        simpa [dictGet] using h0
      subst hv
      have hns : k0 ∉ keys tl ∧ keysNodup tl := by
        simpa [keysNodup, keys] using hn
      have hnotin' : k0 ∉ keys tl' := hk2 ▸ hns.1
      have he2 : ∀ k, dictGet tl k = dictGet tl' k := by
        intro k
        by_cases hkc : k = k0
        · subst hkc
          rw [dictGet_eq_none_of_not_mem hns.1,
              dictGet_eq_none_of_not_mem hnotin']
        · have h0 := he k
          have hne : ¬k0 = k := fun hh => hkc hh.symm
          simpa [dictGet, hne] using h0
      rw [ih hns.2 hk2 he2]

theorem keys_dictSet_of_mem {α : Type} {d : List (String × α)} {k : String}
    (v : α) (h : k ∈ keys d) : keys (dictSet d k v) = keys d := by
  induction d with
  | nil => simp [keys] at h
  | cons hd tl ih =>
    obtain ⟨k0, v0⟩ := hd
    by_cases h0 : k0 = k
    · subst h0; simp [dictSet]
    · have h' : k ∈ keys tl := by
        rcases (by simpa using h : k = k0 ∨ k ∈ keys tl) with h1 | h1
        · exact absurd h1.symm h0
        · exact h1
      simp [dictSet, h0, ih h']

theorem keys_dictSet_of_not_mem {α : Type} {d : List (String × α)} {k : String}
    (v : α) (h : k ∉ keys d) : keys (dictSet d k v) = keys d ++ [k] := by
  induction d with
  | nil => simp [dictSet, keys]
  | cons hd tl ih =>
    obtain ⟨k0, v0⟩ := hd
    have hk : ¬k = k0 ∧ k ∉ keys tl := by simpa using h
    have h0 : ¬k0 = k := fun hh => hk.1 hh.symm
    simp [dictSet, h0, ih hk.2]

theorem keysNodup_dictSet {α : Type} {d : List (String × α)} {k : String}
    (v : α) (h : keysNodup d) : keysNodup (dictSet d k v) := by
  unfold keysNodup at h ⊢
  by_cases hm : k ∈ keys d
  · rw [keys_dictSet_of_mem v hm]
    exact h
  · rw [keys_dictSet_of_not_mem v hm]
    simp [List.nodup_append, h, hm]

theorem keys_dictDel_sublist {α : Type} (d : List (String × α)) (k : String) :
    List.Sublist (keys (dictDel d k)) (keys d) := by
  induction d with
  | nil => simp [dictDel]
  | cons hd tl ih =>
    obtain ⟨k0, v0⟩ := hd
    by_cases h : k0 = k
    · subst h
      simp only [dictDel, if_true, keys_cons]
      exact List.sublist_cons_self k0 (keys tl)
    · simp only [dictDel, h, if_false, keys_cons]
      exact ih.cons₂ k0

theorem keysNodup_dictDel {α : Type} {d : List (String × α)} (k : String)
    (h : keysNodup d) : keysNodup (dictDel d k) :=
  (keys_dictDel_sublist d k).nodup h

theorem dictGet_dictDel_self {α : Type} {d : List (String × α)} {k : String}
    (h : keysNodup d) : dictGet (dictDel d k) k = none := by
  induction d with
  | nil => simp [dictDel, dictGet]
  | cons hd tl ih =>
    obtain ⟨k0, v0⟩ := hd
    have hns : k0 ∉ keys tl ∧ keysNodup tl := by
      simpa [keysNodup, keys] using h
    by_cases h0 : k0 = k
    · subst h0
      simp [dictDel]
      exact dictGet_eq_none_of_not_mem hns.1
    · simp [dictDel, dictGet, h0, ih hns.2]

theorem dictGet_dictDel_ne {α : Type} (d : List (String × α)) {k k' : String}
    (h : k ≠ k') : dictGet (dictDel d k) k' = dictGet d k' := by
  induction d with
  | nil => simp [dictDel]
  | cons hd tl ih =>
    obtain ⟨k0, v0⟩ := hd
    by_cases h0 : k0 = k
    · subst h0
      have : ¬k0 = k' := h
      simp [dictDel, dictGet, this]
    · by_cases h1 : k0 = k'
      · subst h1; simp [dictDel, dictGet, h0]
      · simp [dictDel, dictGet, h0, h1, ih]

theorem dictGet_append_single_ne {α : Type} (d : List (String × α))
    {k0 k : String} (v : α) (h : k0 ≠ k) :
    dictGet (d ++ [(k0, v)]) k = dictGet d k := by
  induction d with
  | nil => simp [dictGet, h]
  | cons hd tl ih =>
    obtain ⟨ka, va⟩ := hd
    by_cases ha : ka = k <;> simp [dictGet, ha, ih]

theorem dictGet_scanStep_self (ex : String → Meta)
    (g : List (String × List Track)) (e : DirEntry) :
    dictGet (scanStep ex g e) (basename e.root) = some (dirBucket ex e) := by
  unfold scanStep
  exact dictGet_dictSet_self _ _ _

theorem dictGet_scanStep_ne (ex : String → Meta)
    (g : List (String × List Track)) (e : DirEntry) {k : String}
    (h : basename e.root ≠ k) :
    dictGet (scanStep ex g e) k = dictGet g k := by
  unfold scanStep
  rw [dictGet_dictSet_ne _ _ h, dictGet_dictSet_ne _ _ h]
  by_cases hc : dictContains g (basename e.root)
  · simp [hc]
  · simp only [hc, Bool.false_eq_true, if_false]
    exact dictGet_append_single_ne _ _ h

theorem keys_scanStep_of_mem {ex : String → Meta}
    {g : List (String × List Track)} {e : DirEntry}
    (h : basename e.root ∈ keys g) : keys (scanStep ex g e) = keys g := by
  have hc : dictContains g (basename e.root) = true := by
    unfold dictContains
    exact (mem_keys_iff g _).mp h
  unfold scanStep
  simp only [hc, if_true]
  rw [keys_dictSet_of_mem _ (by rw [keys_dictSet_of_mem _ h]; exact h),
      keys_dictSet_of_mem _ h]

theorem keys_scanStep_of_not_mem {ex : String → Meta}
    {g : List (String × List Track)} {e : DirEntry}
    (h : basename e.root ∉ keys g) :
    keys (scanStep ex g e) = keys g ++ [basename e.root] := by
  have hc : dictContains g (basename e.root) = false := by
    unfold dictContains
    cases hd : dictGet g (basename e.root) with
    | none => rfl
    | some v => exact absurd ((mem_keys_iff g _).mpr (by simp [hd])) h
  unfold scanStep
  simp only [hc, Bool.false_eq_true, if_false]
  have hk0 : keys (g ++ [(basename e.root, ([] : List Track))]) =
      keys g ++ [basename e.root] := by
    rw [keys_append]; rfl
  have hm : basename e.root ∈ keys (g ++ [(basename e.root, ([] : List Track))]) := by
    rw [hk0]; simp
  rw [keys_dictSet_of_mem _ (by rw [keys_dictSet_of_mem _ hm]; exact hm),
      keys_dictSet_of_mem _ hm, hk0]

theorem mem_keys_scanStep_self (ex : String → Meta)
    (g : List (String × List Track)) (e : DirEntry) :
    basename e.root ∈ keys (scanStep ex g e) := by
  rw [mem_keys_iff, dictGet_scanStep_self]
  rfl

theorem mem_keys_scanStep_mono {ex : String → Meta}
    {g : List (String × List Track)} {e : DirEntry} {k : String}
    (hk : k ∈ keys g) : k ∈ keys (scanStep ex g e) := by
  by_cases h : basename e.root = k
  · subst h; exact mem_keys_scanStep_self ex g e
  · rw [mem_keys_iff] at hk ⊢
    rw [dictGet_scanStep_ne ex g e h]
    exact hk

theorem keysNodup_scanStep {ex : String → Meta}
    {g : List (String × List Track)} (e : DirEntry) (h : keysNodup g) :
    keysNodup (scanStep ex g e) := by
  unfold keysNodup at h ⊢
  by_cases hm : basename e.root ∈ keys g
  · rw [keys_scanStep_of_mem hm]; exact h
  · rw [keys_scanStep_of_not_mem hm]
    simp [List.nodup_append, h, hm]

theorem walkBucket_cons (ex : String → Meta) (e : DirEntry)
    (es : List DirEntry) (k : String) :
    walkBucket ex (e :: es) k =
      match walkBucket ex es k with
      | some b => some b
      | none =>
        if basename e.root = k then some (dirBucket ex e) else none := rfl

theorem dictGet_scanFold (ex : String → Meta) (es : List DirEntry)
    (g : List (String × List Track)) (k : String) :
    dictGet (es.foldl (scanStep ex) g) k =
      match walkBucket ex es k with
      | some b => some b
      | none => dictGet g k := by
  induction es generalizing g with
  | nil => simp [walkBucket]
  | cons e es ih =>
    rw [List.foldl_cons, ih, walkBucket_cons]
    cases hw : walkBucket ex es k with
    | some b => simp
    | none =>
      by_cases h : basename e.root = k
      · subst h
        simp [dictGet_scanStep_self]
      · simp [h, dictGet_scanStep_ne ex g e h]

theorem mem_keys_scanFold_mono {ex : String → Meta} {es : List DirEntry}
    {g : List (String × List Track)} {k : String} (hk : k ∈ keys g) :
    k ∈ keys (es.foldl (scanStep ex) g) := by
  induction es generalizing g with
  | nil => exact hk
  | cons e es ih =>
    rw [List.foldl_cons]
    exact ih (mem_keys_scanStep_mono hk)

theorem mem_keys_scanFold_of_mem {ex : String → Meta} {es : List DirEntry}
    {g : List (String × List Track)} {e : DirEntry} (he : e ∈ es) :
    basename e.root ∈ keys (es.foldl (scanStep ex) g) := by
  induction es generalizing g with
  | nil => simp at he
  | cons e0 es ih =>
    rw [List.foldl_cons]
    rcases List.mem_cons.mp he with rfl | hmem
    · exact mem_keys_scanFold_mono (mem_keys_scanStep_self ex g e)
    · exact ih hmem

theorem keys_scanFold_of_all_mem {ex : String → Meta} {es : List DirEntry}
    {g : List (String × List Track)}
    (h : ∀ e ∈ es, basename e.root ∈ keys g) :
    keys (es.foldl (scanStep ex) g) = keys g := by
  induction es generalizing g with
  | nil => rfl
  | cons e es ih =>
    rw [List.foldl_cons]
    have h1 : basename e.root ∈ keys g := h e (List.mem_cons_self _ _)
    have hk : keys (scanStep ex g e) = keys g := keys_scanStep_of_mem h1
    rw [ih (fun e' he' => hk.symm ▸ h e' (List.mem_cons_of_mem _ he')), hk]

theorem keysNodup_scanFold {ex : String → Meta} {es : List DirEntry}
    {g : List (String × List Track)} (h : keysNodup g) :
    keysNodup (es.foldl (scanStep ex) g) := by
  induction es generalizing g with
  | nil => exact h
  | cons e es ih =>
    rw [List.foldl_cons]
    exact ih (keysNodup_scanStep e h)

theorem scanFold_idem (ex : String → Meta) (es : List DirEntry)
    {g : List (String × List Track)} (h : keysNodup g) :
    es.foldl (scanStep ex) (es.foldl (scanStep ex) g) =
      es.foldl (scanStep ex) g := by
  have h1 : keysNodup (es.foldl (scanStep ex) g) := keysNodup_scanFold h
  have hall : ∀ e ∈ es, basename e.root ∈ keys (es.foldl (scanStep ex) g) :=
    fun _ he => mem_keys_scanFold_of_mem he
  apply dict_ext (keysNodup_scanFold h1) (keys_scanFold_of_all_mem hall)
  intro k
  rw [dictGet_scanFold, dictGet_scanFold]
  cases hw : walkBucket ex es k <;> simp [hw, dictGet_scanFold]

theorem update_playlist_genres (s : PlayerState) :
    (update_playlist s).genres = s.genres := by
  unfold update_playlist
  split <;> rfl

theorem update_playlist_scanned_folders (s : PlayerState) :
    (update_playlist s).scanned_folders = s.scanned_folders := by
  unfold update_playlist
  split <;> rfl

theorem update_playlist_current_index (s : PlayerState) :
    (update_playlist s).current_index = s.current_index := by
  unfold update_playlist
  split <;> rfl

theorem update_playlist_genre_filter (s : PlayerState) :
    (update_playlist s).genre_filter = s.genre_filter := by
  unfold update_playlist
  split <;> rfl

theorem mem_insertFolder (folder : String) (l : List String) :
    folder ∈ (if folder ∈ l then l else l ++ [folder]) := by
  split
  · assumption
  · simp

theorem update_playlist_eq (s : PlayerState) :
    update_playlist s =
      { s with current_playlist := playlistOf s.genres s.genre_filter } := by
  unfold update_playlist playlistOf
  split <;> rfl

theorem scan_folder_eq (fs : Walk) (ex : String → Meta) (s : PlayerState)
    (folder : String) :
    scan_folder fs ex s folder =
      ({ s with
          genres := (fs folder).foldl (scanStep ex) s.genres,
          scanned_folders :=
            if folder ∈ s.scanned_folders then s.scanned_folders
            else s.scanned_folders ++ [folder],
          current_playlist :=
            playlistOf ((fs folder).foldl (scanStep ex) s.genres)
              s.genre_filter },
       (fs folder).flatMap dirLog) := by
  unfold scan_folder
  simp only [update_playlist_eq]

theorem string_append_left_cancel {a b c : String} (h : a ++ b = a ++ c) :
    b = c := by
  have h2 := congrArg String.data h
  simp only [String.data_append] at h2
  have h3 := List.append_cancel_left h2
  cases b
  cases c
  exact congrArg String.mk h3

theorem dirBucket_paths (ex : String → Meta) (e : DirEntry) :
    (dirBucket ex e).map Track.path =
      (e.files.filter isAudioFile).map (fun f => e.root ++ "/" ++ f) := by
  unfold dirBucket
  rw [List.map_map]
  rfl

theorem dirBucket_paths_nodup (ex : String → Meta) {e : DirEntry}
    (hf : e.files.Nodup) : ((dirBucket ex e).map Track.path).Nodup := by
  rw [dirBucket_paths]
  apply List.Nodup.map
  · intro f f' hff
    exact string_append_left_cancel hff
  · exact hf.filter _

theorem flattenAll_length (g : List (String × List Track)) :
    (flattenAll g).length = (g.map (fun gv => gv.2.length)).sum := by
  simp [flattenAll, List.length_flatMap, Function.comp_def]

theorem mem_flattenAll {g : List (String × List Track)} {a : ATrack} :
    a ∈ flattenAll g ↔ ∃ gv, gv ∈ g ∧ a.track ∈ gv.2 ∧ a.genre = gv.1 := by
  unfold flattenAll
  rw [List.mem_flatMap]
  constructor
  · rintro ⟨gv, hgv, hmem⟩
    rw [List.mem_map] at hmem
    obtain ⟨t, ht, rfl⟩ := hmem
    exact ⟨gv, hgv, ht, rfl⟩
  · rintro ⟨gv, hgv, ht, hg⟩
    refine ⟨gv, hgv, ?_⟩
    rw [List.mem_map]
    obtain ⟨tr, gn⟩ := a
    cases hg
    exact ⟨tr, ht, rfl⟩

theorem mem_flattenAll_dictGet {g : List (String × List Track)} {a : ATrack}
    (hn : keysNodup g) (ha : a ∈ flattenAll g) :
    ∃ ts, dictGet g a.genre = some ts ∧ a.track ∈ ts := by
  obtain ⟨gv, hgv, ht, hg⟩ := mem_flattenAll.mp ha
  refine ⟨gv.2, ?_, ht⟩
  rw [hg]
  exact dictGet_of_mem_nodup hn (by obtain ⟨k, v⟩ := gv; exact hgv)

theorem flattenAll_absent {g : List (String × List Track)} (hn : keysNodup g)
    {k : String} (hk : dictGet g k = none) :
    ∀ a ∈ flattenAll g, a.genre ≠ k := by
  intro a ha heq
  obtain ⟨ts, hts, _⟩ := mem_flattenAll_dictGet hn ha
  rw [heq, hk] at hts
  cases hts

theorem removeStepAll_genres_spec (s : PlayerState) (i : Nat)
    (h : keysNodup s.genres) :
    keysNodup (removeStepAll s i).genres ∧
    ∀ g, dictGet (removeStepAll s i).genres g = some [] →
      dictGet s.genres g = some [] := by
  unfold removeStepAll
  cases hget : s.current_playlist.get? i with
  | none =>
    dsimp only
    exact ⟨h, fun g hg => hg⟩
  | some a =>
    dsimp only
    cases hd : dictGet s.genres a.genre with
    | none =>
      dsimp only
      exact ⟨h, fun g hg => hg⟩
    | some ts =>
      dsimp only
      by_cases he : ts.filter (fun t => t.path ≠ a.track.path) = []
      · rw [if_pos he]
        refine ⟨keysNodup_dictDel _ (keysNodup_dictSet _ h), ?_⟩
        intro g hg
        by_cases hgg : a.genre = g
        · subst hgg
          rw [dictGet_dictDel_self (keysNodup_dictSet _ h)] at hg
          cases hg
        · rw [dictGet_dictDel_ne _ hgg, dictGet_dictSet_ne _ _ hgg] at hg
          exact hg
      · rw [if_neg he]
        refine ⟨keysNodup_dictSet _ h, ?_⟩
        intro g hg
        by_cases hgg : a.genre = g
        · subst hgg
          rw [dictGet_dictSet_self] at hg
          exact absurd (Option.some.inj hg) he
        · rw [dictGet_dictSet_ne _ _ hgg] at hg
          exact hg

theorem removeFold_genres_spec (sel : List Nat) (s : PlayerState)
    (h : keysNodup s.genres) :
    keysNodup (sel.foldl removeStepAll s).genres ∧
    ∀ g, dictGet (sel.foldl removeStepAll s).genres g = some [] →
      dictGet s.genres g = some [] := by
  induction sel generalizing s with
  | nil => exact ⟨h, fun g hg => hg⟩
  | cons i sel ih =>
    rw [List.foldl_cons]
    obtain ⟨h1, h2⟩ := removeStepAll_genres_spec s i h
    obtain ⟨h3, h4⟩ := ih (removeStepAll s i) h1
    exact ⟨h3, fun g hg => h2 g (h4 g hg)⟩

theorem remove_selected_genres_spec (s : PlayerState) (sel : List Nat)
    (h : keysNodup s.genres) :
    keysNodup (remove_selected s sel).genres ∧
    ∀ g, dictGet (remove_selected s sel).genres g = some [] →
      dictGet s.genres g = some [] := by
  unfold remove_selected
  by_cases hsel : sel = []
  · rw [if_pos hsel]
    exact ⟨h, fun g hg => hg⟩
  · rw [if_neg hsel]
    by_cases hf : s.genre_filter = "All Genres"
    · rw [if_pos hf]
      obtain ⟨h1, h2⟩ := removeFold_genres_spec sel s h
      rw [update_playlist_eq]
      exact ⟨h1, h2⟩
    · rw [if_neg hf]
      cases hd : dictGet s.genres s.genre_filter with
      | none =>
        dsimp only
        rw [update_playlist_eq]
        exact ⟨h, fun g hg => hg⟩
      | some ts =>
        dsimp only
        by_cases he : (ts.enum.filter (fun p => p.1 ∉ sel)).map Prod.snd = []
        · rw [if_pos he, update_playlist_eq]
          refine ⟨keysNodup_dictDel _ (keysNodup_dictSet _ h), ?_⟩
          intro g hg
          by_cases hgg : s.genre_filter = g
          · subst hgg
            rw [dictGet_dictDel_self (keysNodup_dictSet _ h)] at hg
            cases hg
          · rw [dictGet_dictDel_ne _ hgg, dictGet_dictSet_ne _ _ hgg] at hg
            exact hg
        · rw [if_neg he, update_playlist_eq]
          refine ⟨keysNodup_dictSet _ h, ?_⟩
          intro g hg
          by_cases hgg : s.genre_filter = g
          · subst hgg
            rw [dictGet_dictSet_self] at hg
            exact absurd (Option.some.inj hg) he
          · rw [dictGet_dictSet_ne _ _ hgg] at hg
            exact hg

theorem string_data_ext {a b : String} (h : a.data = b.data) : a = b := by
  cases a
  cases b
  exact congrArg String.mk h

theorem dumpTrack_noart {t : Track} (h : t.album_art = none) :
    dumpTrack t = (specTrackShape t, true) := by
  unfold dumpTrack
  rw [h]
  dsimp only
  simp only [Prod.mk.injEq, and_true]
  simp [specTrackShape, joinSep, jsonEntry, String.append_assoc]

theorem dumpTrack_art {t : Track} {b : Bytes} (h : t.album_art = some b) :
    (dumpTrack t).2 = false := by
  unfold dumpTrack
  rw [h]

theorem dumpTrackItems_noart {ts : List Track}
    (h : ∀ t ∈ ts, t.album_art = none) (first : Bool) :
    dumpTrackItems ts first =
      (if ts = [] then ""
       else (if first then "" else ", ") ++
         joinSep ", " (ts.map specTrackShape), true) := by
  induction ts generalizing first with
  | nil => simp [dumpTrackItems]
  | cons t ts ih =>
    have h1 := dumpTrack_noart (h t (by simp))
    have h2 := ih (fun t' ht' => h t' (by simp [ht'])) false
    simp only [dumpTrackItems, h1, h2]
    cases ts with
    | nil => simp [joinSep]
    | cons t2 ts2 => simp [joinSep, String.append_assoc]

theorem dumpTrackList_noart {ts : List Track}
    (h : ∀ t ∈ ts, t.album_art = none) :
    dumpTrackList ts =
      ("[" ++ joinSep ", " (ts.map specTrackShape) ++ "]", true) := by
  cases ts with
  | nil => decide
  | cons t ts' =>
    have h1 := dumpTrackItems_noart h true
    simp [dumpTrackList, h1]

theorem dumpGenreItems_noart {gl : List (String × List Track)}
    (h : ∀ gv ∈ gl, ∀ t ∈ gv.2, t.album_art = none) (first : Bool) :
    dumpGenreItems gl first =
      (if gl = [] then ""
       else (if first then "" else ", ") ++
         joinSep ", " (gl.map (fun gv =>
           jsonEntry gv.1
             ("[" ++ joinSep ", " (gv.2.map specTrackShape) ++ "]"))),
       true) := by
  induction gl generalizing first with
  | nil => simp [dumpGenreItems]
  | cons gv gl ih =>
    obtain ⟨g, ts⟩ := gv
    have h1 := dumpTrackList_noart (fun t ht => h (g, ts) (by simp) t ht)
    have h2 := ih (fun gv' hgv' => h gv' (by simp [hgv'])) false
    simp only [dumpGenreItems, h1, h2]
    cases gl with
    | nil => simp [joinSep]
    | cons gv2 gl2 => simp [joinSep, String.append_assoc]

theorem dumpGenresDict_noart {gl : List (String × List Track)}
    (h : ∀ gv ∈ gl, ∀ t ∈ gv.2, t.album_art = none) :
    dumpGenresDict gl =
      ("\x7b" ++
         joinSep ", " (gl.map (fun gv =>
           jsonEntry gv.1
             ("[" ++ joinSep ", " (gv.2.map specTrackShape) ++ "]"))) ++
         "\x7d", true) := by
  cases gl with
  | nil => decide
  | cons gv gl' =>
    have h1 := dumpGenreItems_noart h true
    simp [dumpGenresDict, h1]

theorem dumpFolderItems_eq (fs : List String) (first : Bool) :
    dumpFolderItems fs first =
      (if fs = [] then ""
       else (if first then "" else ", ") ++ joinSep ", " (fs.map jsonQuote)) := by
  induction fs generalizing first with
  | nil => simp [dumpFolderItems]
  | cons f fs ih =>
    simp only [dumpFolderItems, ih false]
    cases fs with
    | nil => simp [joinSep]
    | cons f2 fs2 => simp [joinSep, String.append_assoc]

theorem dumpFolderList_eq (fs : List String) :
    dumpFolderList fs = "[" ++ joinSep ", " (fs.map jsonQuote) ++ "]" := by
  cases fs with
  | nil => decide
  | cons f fs' =>
    simp [dumpFolderList, dumpFolderItems_eq]

theorem dumpConfig_noart {s : PlayerState}
    (h : ∀ gv ∈ s.genres, ∀ t ∈ gv.2, t.album_art = none) :
    dumpConfig s = (specSaveShape s, true) := by
  unfold dumpConfig
  simp only [dumpGenresDict_noart h, dumpFolderList_eq, if_true]
  simp [specSaveShape, joinSep, jsonEntry, String.append_assoc]

theorem dumpTrackItems_art {ts : List Track} {t : Track} {b : Bytes}
    (ht : t ∈ ts) (hb : t.album_art = some b) (first : Bool) :
    (dumpTrackItems ts first).2 = false := by
  induction ts generalizing first with
  | nil => simp at ht
  | cons t0 ts ih =>
    rcases List.mem_cons.mp ht with rfl | hmem
    · have h1 := dumpTrack_art hb
      simp [dumpTrackItems, h1]
    · cases hv : (dumpTrack t0).2 <;> simp [dumpTrackItems, hv, ih hmem]

theorem dumpTrackList_art {ts : List Track} {t : Track} {b : Bytes}
    (ht : t ∈ ts) (hb : t.album_art = some b) :
    (dumpTrackList ts).2 = false := by
  cases ts with
  | nil => simp at ht
  | cons t0 ts' =>
    have h1 := dumpTrackItems_art ht hb true
    simp [dumpTrackList, h1]

theorem dumpGenreItems_art {gl : List (String × List Track)}
    {gv : String × List Track} {t : Track} {b : Bytes} (hgv : gv ∈ gl)
    (ht : t ∈ gv.2) (hb : t.album_art = some b) (first : Bool) :
    (dumpGenreItems gl first).2 = false := by
  induction gl generalizing first with
  | nil => simp at hgv
  | cons gv0 gl ih =>
    obtain ⟨g, ts⟩ := gv0
    rcases List.mem_cons.mp hgv with heq | hmem
    · subst heq
      have h1 := dumpTrackList_art ht hb
      simp [dumpGenreItems, h1]
    · cases hv : (dumpTrackList ts).2 <;>
        simp [dumpGenreItems, hv, ih hmem]

theorem dumpGenresDict_art {gl : List (String × List Track)}
    {gv : String × List Track} {t : Track} {b : Bytes} (hgv : gv ∈ gl)
    (ht : t ∈ gv.2) (hb : t.album_art = some b) :
    (dumpGenresDict gl).2 = false := by
  cases gl with
  | nil => simp at hgv
  | cons gv0 gl' =>
    have h1 := dumpGenreItems_art hgv ht hb true
    simp [dumpGenresDict, h1]

theorem dumpConfig_art (s : PlayerState) (gv : String × List Track)
    (t : Track) (b : Bytes) (hgv : gv ∈ s.genres) (ht : t ∈ gv.2)
    (hb : t.album_art = some b) : (dumpConfig s).2 = false := by
  unfold dumpConfig
  simp [dumpGenresDict_art hgv ht hb]

/-- C1 counterexample: with the walk `exampleWalk`, after scanning root
folders A and B the path "A" is a member of the scanned-folders set, yet
calling `scan_folder` on it again is not a no-op — the Library changes
(the re-walk rebuilds the shared bucket G, dropping B's track) and the
Metadata Extractor is invoked again (the extraction log of the call is
nonempty). -/
theorem c1_rescan_counterexample :
    "A" ∈ stateAB.scanned_folders ∧
    (scan_folder exampleWalk exampleExtract stateAB "A").1.genres ≠
      stateAB.genres ∧
    (scan_folder exampleWalk exampleExtract stateAB "A").2 ≠ [] := by
  decide

/-- C1 (amended): a call to `scan_folder` on an already-scanned folder is
not skipped — the tree is re-walked and the Metadata Extractor re-invoked
on every matching file (see `c1_rescan_counterexample`) — but re-scanning
the same folder immediately after scanning it returns the identical state
and performs the identical extractor calls, so scanning the same folder
path twice in a row yields a Library, playlist and scanned-folders set
identical to scanning it once. -/
theorem c1_scan_twice_idempotent (fs : Walk) (ex : String → Meta)
    {s : PlayerState} (folder : String) (h : keysNodup s.genres) :
    scan_folder fs ex (scan_folder fs ex s folder).1 folder =
      scan_folder fs ex s folder := by
  rw [scan_folder_eq fs ex s folder]
  rw [scan_folder_eq]
  simp only [Prod.mk.injEq]
  refine ⟨?_, trivial⟩
  have hidem := scanFold_idem ex (fs folder) h
  have hmem := mem_insertFolder folder s.scanned_folders
  simp [hidem, hmem]

theorem c1_scan_twice_idempotent_witness :
    keysNodup initState.genres ∧
    scan_folder exampleWalk exampleExtract
        (scan_folder exampleWalk exampleExtract initState "A").1 "A" =
      scan_folder exampleWalk exampleExtract initState "A" :=
  ⟨by decide,
   c1_scan_twice_idempotent exampleWalk exampleExtract "A" (by decide)⟩

/-- C2 counterexample: the full path "A/G/a.mp3" is already present in the
genre bucket G (built from its directory's basename) of the state reached
by scanning A, yet re-walking the same tree hands that path to the
Metadata Extractor again — there is no per-path existing-bucket check. -/
theorem c2_dedup_counterexample :
    dictGet stateA.genres "G" = some [trackA1] ∧
    trackA1.path ∈ (scan_folder exampleWalk exampleExtract stateA "A").2 := by
  decide

/-- C2 (amended): the scan prevents duplicates by clearing and rebuilding
every bucket named by the walk, not by a per-path check: the Metadata
Extractor is invoked for every matching file of the walk, including files
whose paths the bucket already held; each freshly built bucket holds
pairwise distinct paths (given distinct directory listings); and the
bucket stored for a walked genre is exactly the freshly built track list
of the last directory walked with that basename, so the pre-existing
record for a re-encountered path is discarded, never duplicated. -/
theorem c2_dedup_by_rebuild (fs : Walk) (ex : String → Meta)
    (s : PlayerState) (folder : String)
    (hf : ∀ e ∈ fs folder, e.files.Nodup) :
    (∀ e ∈ fs folder, ∀ f ∈ e.files, isAudioFile f = true →
       (e.root ++ "/" ++ f) ∈ (scan_folder fs ex s folder).2) ∧
    (∀ e ∈ fs folder, ((dirBucket ex e).map Track.path).Nodup) ∧
    (∀ k b, walkBucket ex (fs folder) k = some b →
       dictGet (scan_folder fs ex s folder).1.genres k = some b) := by
  refine ⟨?_, ?_, ?_⟩
  · intro e he f hfm haud
    rw [scan_folder_eq]
    dsimp only
    rw [List.mem_flatMap]
    refine ⟨e, he, ?_⟩
    unfold dirLog
    exact List.mem_map_of_mem _ (List.mem_filter.mpr ⟨hfm, haud⟩)
  · intro e he
    exact dirBucket_paths_nodup ex (hf e he)
  · intro k b hw
    rw [scan_folder_eq]
    dsimp only
    rw [dictGet_scanFold, hw]

theorem c2_dedup_by_rebuild_witness :
    (∀ e ∈ exampleWalk "A", e.files.Nodup) ∧
    trackA1.path ∈ (scan_folder exampleWalk exampleExtract stateA "A").2 :=
  ⟨by decide,
   (c2_dedup_by_rebuild exampleWalk exampleExtract stateA "A" (by decide)).1
     ⟨"A/G", ["a.mp3"]⟩ (by decide) "a.mp3" (by decide) (by decide)⟩

/-- C5 counterexample: scanning root A and then root B (each holding a
subdirectory named G) leaves bucket G holding only B's track — A's track
is not alongside it, so the buckets are not merged. -/
theorem c5_merge_counterexample :
    dictGet stateAB.genres "G" = some [trackB1] ∧ trackA1 ∉ [trackB1] := by
  decide

/-- C5 (amended): when a second scanned root holds a subdirectory whose
basename G already names a bucket, the walk does not merge into the
bucket: every genre key named by the walk is assigned exactly the freshly
built bucket of the last directory walked with that basename, so the
tracks added by the earlier scan are replaced, not kept alongside the new
ones. -/
theorem c5_same_name_bucket_replaced (fs : Walk) (ex : String → Meta)
    (s : PlayerState) (folder : String) (k : String) (b : List Track)
    (hw : walkBucket ex (fs folder) k = some b) :
    dictGet (scan_folder fs ex s folder).1.genres k = some b := by
  rw [scan_folder_eq]
  dsimp only
  rw [dictGet_scanFold, hw]

theorem c5_same_name_bucket_replaced_witness :
    dictGet (scan_folder exampleWalk exampleExtract stateA "B").1.genres "G" =
      some [trackB1] :=
  c5_same_name_bucket_replaced exampleWalk exampleExtract stateA "B" "G"
    [trackB1] (by decide)

/-- C3 counterexample: saving a Library that holds album-art bytes
destroys the previous on-disk content instead of leaving it untouched:
`open(..., 'w')` truncates the file, then `json.dump`'s incremental
encoder writes chunk after chunk until it reaches the bytes value of
`album_art` and raises `TypeError` — the key and its `": "` are already
out — and the swallowed exception leaves the file holding exactly that
partial JSON prefix, not the previous content. -/
theorem c3_save_counterexample :
    save_data stateArt (some "old") true =
      some "\x7b\"genres\": \x7b\"Rock\": [\x7b\"path\": \"Rock/x.mp3\", \"title\": \"x\", \"artist\": \"A\", \"album_art\": " ∧
    save_data stateArt (some "old") true ≠ some "old" := by
  decide

/-- C3 (amended): `save_data` never raises (its catch-all `except` makes
it a total function), and when opening the config file itself fails the
previous on-disk content is left untouched; but when serialization fails
after a successful open — the one failure mode of `json.dump` on this
data, album-art bytes — the truncated file is left holding the partial
JSON prefix that the incremental encoder wrote before the `TypeError`,
not the previous content. -/
theorem c3_save_error_handling (s : PlayerState) (file : Option String) :
    save_data s file false = file ∧
    ((dumpConfig s).2 = false →
       save_data s file true = some (dumpConfig s).1) := by
  constructor
  · simp [save_data]
  · intro _
    simp [save_data]

theorem c3_save_error_handling_witness :
    save_data stateArt (some "old") false = some "old" ∧
    save_data stateArt (some "old") true = some (dumpConfig stateArt).1 := by
  have h := c3_save_error_handling stateArt (some "old")
  exact ⟨h.1, h.2 (by decide)⟩

/-- C4 counterexample: for a Library whose track records hold in-memory
album-art bytes, `save_data` does not write a JSON document of the
claimed shape — `json.dump` raises on the bytes, leaving only the partial
prefix written up to the offending `album_art` value (the bytes
themselves are never written), which is not the spec's document shape. -/
theorem c4_save_shape_counterexample :
    save_data stateArt (some "old") true =
      some "\x7b\"genres\": \x7b\"Rock\": [\x7b\"path\": \"Rock/x.mp3\", \"title\": \"x\", \"artist\": \"A\", \"album_art\": " ∧
    "\x7b\"genres\": \x7b\"Rock\": [\x7b\"path\": \"Rock/x.mp3\", \"title\": \"x\", \"artist\": \"A\", \"album_art\": " ≠
      specSaveShape stateArt := by
  decide

/-- C4 (amended): when no track of the Library holds in-memory album-art
bytes, `save_data` writes exactly the claimed document shape
`\x7b"genres": \x7b<name>: [\x7b"path", "title", "artist",
"album_art": null\x7d...]\x7d, "folders": [str...]\x7d`; when some track
does hold art bytes, the incremental encoder raises on them before
emitting any chunk of the bytes value — so the album-art bytes are never
written to the file, but neither is a document of the claimed shape: the
file is left holding only the partial prefix written before the raise. -/
theorem c4_save_shape (s : PlayerState) (file : Option String) :
    ((∀ gv ∈ s.genres, ∀ t ∈ gv.2, t.album_art = none) →
       save_data s file true = some (specSaveShape s)) ∧
    (∀ gv ∈ s.genres, ∀ t ∈ gv.2, ∀ b : Bytes, t.album_art = some b →
       (dumpConfig s).2 = false ∧
       save_data s file true = some (dumpConfig s).1) := by
  constructor
  · intro h
    simp [save_data, dumpConfig_noart h]
  · intro gv hgv t ht b hb
    exact ⟨dumpConfig_art s gv t b hgv ht hb, by simp [save_data]⟩

theorem c4_save_shape_witness :
    save_data stateRC none true = some (specSaveShape stateRC) :=
  (c4_save_shape stateRC none).1 (by decide)

/-- C6: with the filter "All Genres", `update_playlist` produces a
playlist whose length is the sum of all genre bucket lengths, and every
element carries a genre annotation whose bucket contains its track —
under the spec's cross-bucket path-uniqueness invariant the annotated
bucket is the only bucket holding the element's path; with a specific
genre filter it produces that bucket's ordered tracks, each annotated
with that genre. -/
theorem c6_flatten_completeness (s : PlayerState) (hn : keysNodup s.genres)
    (hdisj : PathsDisjoint s.genres) :
    (s.genre_filter = "All Genres" →
       (update_playlist s).current_playlist.length =
         (s.genres.map (fun gv => gv.2.length)).sum ∧
       ∀ a ∈ (update_playlist s).current_playlist,
         ∃ ts, dictGet s.genres a.genre = some ts ∧ a.track ∈ ts ∧
           ∀ g' ts', dictGet s.genres g' = some ts' →
             a.track.path ∈ ts'.map Track.path → g' = a.genre) ∧
    (s.genre_filter ≠ "All Genres" →
       (update_playlist s).current_playlist =
         ((dictGet s.genres s.genre_filter).getD []).map
           (fun t => ⟨t, s.genre_filter⟩)) := by
  constructor
  · intro hf
    rw [update_playlist_eq]
    dsimp only
    unfold playlistOf
    rw [if_pos hf]
    refine ⟨flattenAll_length s.genres, ?_⟩
    intro a ha
    obtain ⟨gv, hgv, ht, hgenre⟩ := mem_flattenAll.mp ha
    have hget : dictGet s.genres a.genre = some gv.2 := by
      rw [hgenre]
      exact dictGet_of_mem_nodup hn (by obtain ⟨x, y⟩ := gv; exact hgv)
    refine ⟨gv.2, hget, ht, ?_⟩
    intro g' ts' hget' hp
    by_contra hne
    have hmem' : (g', ts') ∈ s.genres := mem_of_dictGet hget'
    have hpair : gv ≠ (g', ts') := by
      intro heq
      rw [heq] at hgenre
      exact hne hgenre.symm
    have hsym : Symmetric (fun gv gv' : String × List Track =>
        ∀ p ∈ gv.2.map Track.path, p ∉ gv'.2.map Track.path) :=
      fun x y hxy p hpy hpx => hxy p hpx hpy
    have hR := List.Pairwise.forall hsym hdisj hgv hmem' hpair
    exact hR a.track.path (List.mem_map_of_mem Track.path ht) hp
  · intro hf
    rw [update_playlist_eq]
    dsimp only
    unfold playlistOf
    rw [if_neg hf]

theorem c6_flatten_completeness_witness :
    (update_playlist stateRC).current_playlist.length =
      (stateRC.genres.map (fun gv => gv.2.length)).sum :=
  ((c6_flatten_completeness stateRC (by decide) (by decide)).1 (by decide)).1

/-- C7: `load_saved_data`'s catch-all `except` makes it total — `load`
never raises to its caller — and on any read or parse failure of the
persisted file (`json.load` raising, modelled by `parsed = none`) as well
as on any shape error inside the `try` (`interpConfig` returning `none`),
it leaves the Library and the scanned-folders set empty. -/
theorem c7_load_failure_empty (pathExists : String → Bool)
    (extract : String → Meta) (s : PlayerState) :
    ((load_saved_data true none pathExists extract s).genres = [] ∧
     (load_saved_data true none pathExists extract s).scanned_folders = []) ∧
    (∀ j, interpConfig pathExists extract j = none →
       (load_saved_data true (some j) pathExists extract s).genres = [] ∧
       (load_saved_data true (some j) pathExists extract s).scanned_folders =
         []) := by
  refine ⟨⟨rfl, rfl⟩, ?_⟩
  intro j hj
  simp [load_saved_data, hj]

theorem c7_load_failure_empty_witness :
    (load_saved_data true (some (JValue.obj [("genres", JValue.num 5)]))
        (fun _ => true) exampleExtract stateRC).genres = [] ∧
    (load_saved_data true (some (JValue.obj [("genres", JValue.num 5)]))
        (fun _ => true) exampleExtract stateRC).scanned_folders = [] :=
  (c7_load_failure_empty (fun _ => true) exampleExtract stateRC).2
    (JValue.obj [("genres", JValue.num 5)]) rfl

/-- C8 counterexample: `stateRC` holds a pre-existing empty bucket Chill
(the shape a scan leaves for a directory without audio files). Removing
the only Rock track deletes the Rock bucket, but afterwards the Chill
bucket still has zero tracks and its key is still present — so it is not
the case that after a remove every zero-track bucket is absent. -/
theorem c8_empty_bucket_counterexample :
    dictGet (remove_selected stateRC [0]).genres "Chill" = some [] := by
  decide

/-- C8 (amended): a remove operation deletes every bucket that the
removal itself empties, and never produces a new empty bucket: any bucket
empty after the remove was already empty before it (pre-existing empty
buckets, left by scanning audio-free directories, are not touched); and a
genre key absent from the Library after the remove contributes no element
to the All-Genres flattening. -/
theorem c8_remove_empties_buckets (s : PlayerState) (sel : List Nat)
    (h : keysNodup s.genres) :
    (∀ g, dictGet (remove_selected s sel).genres g = some [] →
       dictGet s.genres g = some []) ∧
    (∀ g, dictGet (remove_selected s sel).genres g = none →
       ∀ a ∈ flattenAll (remove_selected s sel).genres, a.genre ≠ g) := by
  obtain ⟨h1, h2⟩ := remove_selected_genres_spec s sel h
  exact ⟨h2, fun g hg => flattenAll_absent h1 hg⟩

theorem c8_remove_empties_buckets_witness :
    dictGet stateRC.genres "Chill" = some [] :=
  (c8_remove_empties_buckets stateRC [0] (by decide)).1 "Chill" (by decide)

/-- C9: `shuffle_playlist` preserves the cursor's target track identity:
with a loaded track (0 ≤ current_index < length) the post-shuffle cursor
points at a playlist entry equal to the entry it pointed at before the
shuffle; with no loaded track (current_index = -1) the cursor stays -1. -/
theorem c9_shuffle_preserves_cursor (s : PlayerState)
    (shuffled : List ATrack) (hperm : shuffled.Perm s.current_playlist) :
    (∀ i : Nat, s.current_index = (i : Int) →
       i < s.current_playlist.length →
       (shuffle_playlist s shuffled).current_playlist.get?
           (shuffle_playlist s shuffled).current_index.toNat =
         s.current_playlist.get? i) ∧
    (s.current_index = -1 →
       (shuffle_playlist s shuffled).current_index = -1) := by
  constructor
  · intro i hi hlen
    have hne : s.current_playlist ≠ [] := by
      intro h0
      rw [h0] at hlen
      simp at hlen
    obtain ⟨t, hget⟩ : ∃ t, s.current_playlist.get? i = some t :=
      ⟨_, List.get?_eq_get hlen⟩
    have htmem : t ∈ shuffled :=
      hperm.mem_iff.mpr (List.get?_mem hget)
    unfold shuffle_playlist
    rw [if_neg hne]
    dsimp only
    rw [if_pos (by rw [hi]; exact Int.natCast_nonneg i), hi,
        Int.toNat_ofNat, hget]
    dsimp only
    exact List.indexOf_get? htmem
  · intro hi
    unfold shuffle_playlist
    by_cases hpl : s.current_playlist = []
    · rw [if_pos hpl]
      exact hi
    · rw [if_neg hpl]
      dsimp only
      rw [hi, if_neg (by decide)]

theorem c9_shuffle_preserves_cursor_witness :
    (shuffle_playlist statePlay [⟨trackRock, "Rock"⟩]).current_playlist.get?
        (shuffle_playlist statePlay
          [⟨trackRock, "Rock"⟩]).current_index.toNat =
      statePlay.current_playlist.get? 0 ∧
    0 < statePlay.current_playlist.length := by
  refine ⟨?_, by decide⟩
  have h := c9_shuffle_preserves_cursor statePlay [⟨trackRock, "Rock"⟩]
    (by decide)
  exact h.1 0 (by decide) (by decide)

/-- C10: `play_track` with an out-of-range index (negative or at least
the playlist length) is a no-op that loads no source; with an empty
Current playlist every `play_track`, `play_next` and `play_previous` call
is such a no-op; and with a non-empty playlist `play_next` and
`play_previous` reduce to in-guard `play_track` calls whose modulo has
the positive divisor `len(current_playlist)` — the modulo is never
evaluated with divisor zero. -/
theorem c10_play_track_guard (s : PlayerState) :
    (∀ i : Int, (i < 0 ∨ (s.current_playlist.length : Int) ≤ i) →
       play_track s i = (s, none)) ∧
    (s.current_playlist = [] →
       (∀ i : Int, play_track s i = (s, none)) ∧
       play_next s = (s, none) ∧ play_previous s = (s, none)) ∧
    (s.current_playlist ≠ [] →
       0 < (s.current_playlist.length : Int) ∧
       play_next s =
         play_track s
           ((s.current_index + 1) % (s.current_playlist.length : Int)) ∧
       play_previous s =
         play_track s
           ((s.current_index - 1) % (s.current_playlist.length : Int))) := by
  refine ⟨?_, ?_, ?_⟩
  · intro i hi
    unfold play_track
    rw [dif_neg (by omega)]
  · intro hpl
    refine ⟨?_, ?_, ?_⟩
    · intro i
      unfold play_track
      rw [dif_neg ?_]
      rw [hpl]
      intro hcon
      simp at hcon
      omega
    · unfold play_next
      rw [if_pos hpl]
    · unfold play_previous
      rw [if_pos hpl]
  · intro hpl
    have hlen : 0 < s.current_playlist.length := List.length_pos.mpr hpl
    refine ⟨by exact_mod_cast hlen, ?_, ?_⟩
    · unfold play_next
      rw [if_neg hpl]
    · unfold play_previous
      rw [if_neg hpl]

theorem c10_play_track_guard_witness :
    play_track initState 0 = (initState, none) ∧
    play_next initState = (initState, none) ∧
    play_track stateRC 5 = (stateRC, none) := by
  have h0 := c10_play_track_guard initState
  have h1 := c10_play_track_guard stateRC
  exact ⟨(h0.2.1 rfl).1 0, (h0.2.1 rfl).2.1, h1.1 5 (by decide)⟩

end LocalAudioPlayer
